import Mathlib

/-!
Verification development for the `sql_categolizer` repository.

The program canonicalizes SQL SELECT statements into structural fingerprints.
Its core (`src/sql_categolizer.py`) is a set of pure static methods:

* `abstract_conditions` — a chain of `re.sub` passes over the WHERE-condition
  text (numeric literals to `9`, quoted strings to `'X'`/`"X"`, booleans to
  `B`, `NULL` normalisation, IN-list collapsing, whitespace collapse);
* `process_subqueries` — replaces `\(SELECT[^)]+\)` spans by
  `(sub:<tables>|<conditions>)`;
* `extract_tables` / `process_identifier` / `extract_table_from_subquery` /
  `extract_conditions` / `extract_clause` — walks over the token tree
  produced by the third-party `sqlparse` library;
* `parse_sql` / `categorize_sql` — the pipeline assembly.

This file gives a shallow embedding: the regex passes are implemented as
executable character-list scanners that follow Python `re` semantics for the
exact patterns in the source (leftmost match, greedy with the backtracking
behaviour those particular patterns admit), and the `sqlparse`-facing layer is
embedded as a token-tree model following the library's documented
lexing/grouping behaviour, which is also what the spec describes in its
Lexer / Clause Walker / Identifier & Alias Resolver sections.  All definitions
are total and computable; fallible Python code (uncaught exceptions such as
`sqlparse.parse(sql)[0]` on an empty parse result) is modelled with `Option`.
All inputs considered are ASCII, so ASCII case conversion and character
classes coincide with Python's.
-/

namespace SqlCat

/-- Python regex `\w` (ASCII range): letters, digits, underscore. -/
def isWordChar (c : Char) : Bool := c.isAlpha || c.isDigit || c = '_'

/-- Python regex `\s` (ASCII range): the whitespace characters. -/
def isSpaceChar (c : Char) : Bool :=
  c = ' ' || c = '\t' || c = '\n' || c = '\r' || c = '\x0b' || c = '\x0c'

/-- A word boundary `\b` holds after a word character iff the following
character is absent or not a word character. -/
def boundaryOk : List Char → Bool
  | [] => true
  | c :: _ => !isWordChar c

/-- Scanner for `re.sub(r'\b\d+(?:\.\d+)?\b', '9', s)` (source line 64).
`prevW` records whether the previously scanned character is a word character
(match start requires a boundary, i.e. previous non-word, current digit).
Fuel is structural; every recursive call strictly shrinks the list, so fuel
`length + 1` never runs out. -/
def numAux : Nat → Bool → List Char → List Char
  | 0, _, cs => cs
  | _ + 1, _, [] => []
  | fuel + 1, prevW, c :: cs =>
    if !prevW && c.isDigit then
      -- greedy integer part
      let rest := (c :: cs).dropWhile Char.isDigit
      match rest with
      | '.' :: r2 =>
        if (r2.headD ' ').isDigit then
          -- try the fractional part; if the trailing boundary fails,
          -- backtrack to the integer part (boundary at '.' always holds)
          let r3 := r2.dropWhile Char.isDigit
          if boundaryOk r3 then '9' :: numAux fuel true r3
          else '9' :: numAux fuel true rest
        else '9' :: numAux fuel true rest
      | _ =>
        if boundaryOk rest then '9' :: numAux fuel true rest
        else c :: numAux fuel true cs
    else c :: numAux fuel (isWordChar c) cs

/-- Scanner for `re.sub(r"'[^']*'", "'X'", s)` and the double-quote variant
(source lines 65–66): each quote with a later partner closes at the first
later quote and the span is replaced by `'X'` resp. `"X"`. -/
def quoteAux (q : Char) : Nat → List Char → List Char
  | 0, cs => cs
  | _ + 1, [] => []
  | fuel + 1, c :: cs =>
    if c = q then
      if cs.contains q then
        q :: 'X' :: q :: quoteAux q fuel ((cs.dropWhile (· ≠ q)).drop 1)
      else c :: cs
    else c :: quoteAux q fuel cs

/-- Case-insensitive prefix test; the pattern is given in upper case. -/
def ciStarts : List Char → List Char → Bool
  | [], _ => true
  | _ :: _, [] => false
  | n :: ns, h :: hs => n = h.toUpper && ciStarts ns hs

/-- Case-insensitive substring test (Python `pat in s.upper()` for an
upper-case `pat`). -/
def containsCI (pat : List Char) : List Char → Bool
  | [] => pat.isEmpty
  | c :: cs => ciStarts pat (c :: cs) || containsCI pat cs

/-- Scanner for `re.sub(r'\bTRUE\b|\bFALSE\b', 'B', s, flags=re.IGNORECASE)`
(source line 67). -/
def boolAux : Nat → Bool → List Char → List Char
  | 0, _, cs => cs
  | _ + 1, _, [] => []
  | fuel + 1, prevW, c :: cs =>
    if !prevW && ciStarts "TRUE".data (c :: cs) && boundaryOk ((c :: cs).drop 4) then
      'B' :: boolAux fuel true ((c :: cs).drop 4)
    else if !prevW && ciStarts "FALSE".data (c :: cs) && boundaryOk ((c :: cs).drop 5) then
      'B' :: boolAux fuel true ((c :: cs).drop 5)
    else c :: boolAux fuel (isWordChar c) cs

/-- Scanner for `re.sub(r'\bNULL\b', 'NULL', s, flags=re.IGNORECASE)`
(source line 68): normalises the keyword's case. -/
def nullAux : Nat → Bool → List Char → List Char
  | 0, _, cs => cs
  | _ + 1, _, [] => []
  | fuel + 1, prevW, c :: cs =>
    if !prevW && ciStarts "NULL".data (c :: cs) && boundaryOk ((c :: cs).drop 4) then
      'N' :: 'U' :: 'L' :: 'L' :: nullAux fuel true ((c :: cs).drop 4)
    else c :: nullAux fuel (isWordChar c) cs

/-- The regex alternative `\([^()]*\)`: after an opening parenthesis, scan to
a closing one with no parentheses in between.  Returns the inner characters
and the remainder after the closing parenthesis. -/
def scanFlatGroup : Nat → List Char → Option (List Char × List Char)
  | 0, _ => none
  | _ + 1, [] => none
  | fuel + 1, c :: cs =>
    if c = ')' then some ([], cs)
    else if c = '(' then none
    else (scanFlatGroup fuel cs).map (fun p => (c :: p.1, p.2))

/-- The capture `((?:[^()]+|\([^()]*\))*)` followed by `\)` of the IN-list
pattern (source lines 75 and 81): content may contain single-level
parenthesised groups; it ends at the first top-level closing parenthesis.
Returns the content and the remainder after the closing parenthesis. -/
def inContent : Nat → List Char → Option (List Char × List Char)
  | 0, _ => none
  | _ + 1, [] => none
  | fuel + 1, c :: cs =>
    if c = ')' then some ([], cs)
    else if c = '(' then
      match scanFlatGroup (cs.length + 1) cs with
      | none => none
      | some (inner, rest) =>
        (inContent fuel rest).map (fun p => ('(' :: inner ++ ')' :: p.1, p.2))
    else (inContent fuel cs).map (fun p => (c :: p.1, p.2))

mutual

/-- Scanner for `re.sub(r'IN\s*\(((?:[^()]+|\([^()]*\))*)\)',
replace_in_clause, s, flags=re.IGNORECASE)` (source line 81).  Note the
pattern has no word boundary before `IN`. -/
def inAux : Nat → List Char → List Char
  | 0, cs => cs
  | _ + 1, [] => []
  | fuel + 1, c :: cs =>
    if c.toUpper = 'I' then
      match cs with
      | c2 :: r2 =>
        if c2.toUpper = 'N' then
          match r2.dropWhile isSpaceChar with
          | '(' :: r4 =>
            match inContent (r4.length + 1) r4 with
            | some (content, after) => replaceIn fuel content ++ inAux fuel after
            | none => c :: inAux fuel cs
          | _ => c :: inAux fuel cs
        else c :: inAux fuel cs
      | [] => [c]
    else c :: inAux fuel cs

/-- The callback `replace_in_clause` (source lines 71–80): content with a
nested SELECT is recursively re-scanned for IN-lists and re-wrapped; content
with a quote collapses to `IN ('X')`; anything else to `IN (9)`. -/
def replaceIn : Nat → List Char → List Char
  | 0, content => content
  | fuel + 1, content =>
    if containsCI "SELECT".data content then
      "IN (".data ++ inAux fuel content ++ [')']
    else if content.contains '\'' || content.contains '"' then "IN ('X')".data
    else "IN (9)".data

end

/-- Scanner for `re.sub(r'\s+', ' ', s)` (source line 83). -/
def wsAux : Nat → List Char → List Char
  | 0, cs => cs
  | _ + 1, [] => []
  | fuel + 1, c :: cs =>
    if isSpaceChar c then ' ' :: wsAux fuel (cs.dropWhile isSpaceChar)
    else c :: wsAux fuel cs

/-- Python `str.strip()`. -/
def stripSpaces (cs : List Char) : List Char :=
  ((cs.dropWhile isSpaceChar).reverse.dropWhile isSpaceChar).reverse

/-- Port of `SQLParser.abstract_conditions` (source lines 62–83): the literal
abstraction / condition canonicalisation chain, in source order. -/
def abstract_conditions (s : String) : String :=
  let c1 := numAux (s.data.length + 1) false s.data
  let c2 := quoteAux '\'' (c1.length + 1) c1
  let c3 := quoteAux '"' (c2.length + 1) c2
  let c4 := boolAux (c3.length + 1) false c3
  let c5 := nullAux (c4.length + 1) false c4
  let c6 := inAux (c5.length + 1) c5
  ⟨stripSpaces (wsAux (c6.length + 1) c6)⟩

/-! ## Model of the `sqlparse` token tree

`parse_sql` walks the token tree produced by the third-party `sqlparse`
library.  The spec describes exactly this layer (its Lexer, Clause Walker and
Identifier & Alias Resolver sections), and the repository's own test suite
pins down the resulting behaviour on the statement shapes analysed below.
The model follows `sqlparse`'s lexing rules (keyword classification, numeric
literals `\d+(\.\d*)?|\.\d+`, single-quoted strings) and grouping passes
(parentheses, WHERE regions closed by `ORDER BY`/`GROUP BY`/`LIMIT`/...,
dotted names, single-name identifiers, aliased parenthesised subqueries,
comma-separated identifier lists) far enough to cover SELECT statements of
the kind the claims and the repository's tests exercise. -/

/-- The `sqlparse` token types relevant to the source code's `ttype` tests.
`kw` is exactly `tokens.Keyword` (the source tests `ttype is Keyword`, which
is an identity test, so `Keyword.DML` and `Keyword.Order` are distinct). -/
inductive TokTy where
  | kw | dml | kwOrder | name | builtin | num | strLit | wildcard | op | punct | ws
deriving DecidableEq, Repr

/-- Node kinds: lexer leaves and the `sqlparse` group classes used by the
source (`Identifier`, `IdentifierList`, `Parenthesis`, `Where`). -/
inductive PKind where
  | leafK (tt : TokTy)
  | identG | identListG | parenG | whereK
deriving DecidableEq, Repr

/-- A `sqlparse` token-tree node.  `raw` is `str(token)`; for a group it is
maintained equal to the concatenation of the children's `raw` texts (grouping
never alters text). -/
inductive PTok where
  | node (k : PKind) (raw : String) (children : List PTok)
deriving Repr

def PTok.kind : PTok → PKind
  | .node k _ _ => k

def PTok.raw : PTok → String
  | .node _ r _ => r

def PTok.children : PTok → List PTok
  | .node _ _ ch => ch

def concatRaws (ts : List PTok) : String :=
  ts.foldl (fun a t => a ++ t.raw) ""

def mkLeaf (tt : TokTy) (v : String) : PTok := .node (.leafK tt) v []

def mkGroup (k : PKind) (ch : List PTok) : PTok := .node k (concatRaws ch) ch

/-- Model of `token.is_whitespace` (true only for whitespace leaves). -/
def PTok.isWS (t : PTok) : Bool := t.kind = .leafK .ws

/-- Model of `token.ttype is Keyword` (exact identity: plain `Keyword` only). -/
def PTok.isKw (t : PTok) : Bool := t.kind = .leafK .kw

def upperStr (s : String) : String := ⟨s.data.map Char.toUpper⟩

def PTok.isKwVal (t : PTok) (v : String) : Bool :=
  t.isKw && upperStr t.raw = v

def PTok.isPunctVal (t : PTok) (v : String) : Bool :=
  t.kind = .leafK .punct && t.raw = v

/-! ### Lexer (`sqlparse` SQL_REGEX, restricted to the constructs in play) -/

/-- Keywords classified `tokens.Keyword` by `sqlparse` that can occur in the
inputs analysed here. -/
def kwStrings : List String :=
  ["FROM", "WHERE", "IN", "AS", "AND", "OR", "ON", "JOIN", "BETWEEN",
   "EXISTS", "SET", "LIMIT", "UNION", "EXCEPT", "HAVING", "RETURNING",
   "INTO", "CASE", "VALUES", "USING", "TRUE", "FALSE", "NULL", "NOT",
   "LIKE", "BY", "IS", "DISTINCT"]

/-- Classification of a bare word (`PROCESS_AS_KEYWORD`): DML keywords,
ordering keywords, plain keywords, otherwise a name. -/
def wordKind (w : String) : TokTy :=
  let u := upperStr w
  if u = "SELECT" || u = "INSERT" || u = "UPDATE" || u = "DELETE" then .dml
  else if u = "ASC" || u = "DESC" then .kwOrder
  else if u ∈ kwStrings then .kw
  else .name

def isWordStart (c : Char) : Bool := c.isAlpha || c = '_'

def isWordMore (c : Char) : Bool := isWordChar c || c = '$' || c = '#'

/-- The lexer loop.  Fuel is structural; every token consumes at least one
character, so fuel `length + 1` suffices. -/
def tokAux : Nat → List Char → List PTok
  | 0, _ => []
  | _ + 1, [] => []
  | fuel + 1, c :: cs =>
    if isSpaceChar c then
      mkLeaf .ws ⟨(c :: cs).takeWhile isSpaceChar⟩ ::
        tokAux fuel ((c :: cs).dropWhile isSpaceChar)
    else if c = '\'' then
      -- `'(''|\\'|[^'])*'`; the analysed inputs contain no escaped quotes
      if cs.contains '\'' then
        mkLeaf .strLit ⟨'\'' :: cs.takeWhile (· ≠ '\'') ++ ['\'']⟩ ::
          tokAux fuel ((cs.dropWhile (· ≠ '\'')).drop 1)
      else [mkLeaf .strLit ⟨c :: cs⟩]
    else if c.isDigit then
      -- `(\d+(\.\d*)?|\.\d+)` with a negative lookahead for a following
      -- identifier character; on lookahead failure the word rule applies
      let int := (c :: cs).takeWhile Char.isDigit
      let r := (c :: cs).dropWhile Char.isDigit
      match r with
      | '.' :: r2 =>
        let frac := r2.takeWhile Char.isDigit
        let r3 := r2.dropWhile Char.isDigit
        if isWordStart (r3.headD ' ') then
          mkLeaf .name ⟨(c :: cs).takeWhile isWordMore⟩ ::
            tokAux fuel ((c :: cs).dropWhile isWordMore)
        else
          mkLeaf .num ⟨int ++ '.' :: frac⟩ :: tokAux fuel r3
      | _ =>
        if isWordStart (r.headD ' ') then
          mkLeaf .name ⟨(c :: cs).takeWhile isWordMore⟩ ::
            tokAux fuel ((c :: cs).dropWhile isWordMore)
        else
          mkLeaf .num ⟨int⟩ :: tokAux fuel r
    else if c = '.' && (cs.headD ' ').isDigit then
      let frac := cs.takeWhile Char.isDigit
      let r3 := cs.dropWhile Char.isDigit
      if isWordStart (r3.headD ' ') then
        mkLeaf .punct "." :: tokAux fuel cs
      else
        mkLeaf .num ⟨'.' :: frac⟩ :: tokAux fuel r3
    else if isWordStart c then
      let w : String := ⟨(c :: cs).takeWhile isWordMore⟩
      mkLeaf (wordKind w) w :: tokAux fuel ((c :: cs).dropWhile isWordMore)
    else if c = '*' then
      mkLeaf .wildcard "*" :: tokAux fuel cs
    else if c = '(' || c = ')' || c = ',' || c = '.' || c = ';' ||
            c = '[' || c = ']' then
      mkLeaf .punct ⟨[c]⟩ :: tokAux fuel cs
    else if c = '<' || c = '>' || c = '=' || c = '~' || c = '!' then
      mkLeaf .op ⟨(c :: cs).takeWhile (fun d =>
          d = '<' || d = '>' || d = '=' || d = '~' || d = '!')⟩ ::
        tokAux fuel ((c :: cs).dropWhile (fun d =>
          d = '<' || d = '>' || d = '=' || d = '~' || d = '!'))
    else
      mkLeaf .op ⟨[c]⟩ :: tokAux fuel cs

def tokenize (s : String) : List PTok := tokAux (s.data.length + 1) s.data

/-! ### Grouping passes -/

/-- Collects the tokens up to the matching closing parenthesis (nested pairs
grouped recursively); `none` when unmatched. -/
def parenInner : Nat → List PTok → Option (List PTok × List PTok)
  | 0, _ => none
  | _ + 1, [] => none
  | fuel + 1, t :: r =>
    if t.isPunctVal ")" then some ([], r)
    else if t.isPunctVal "(" then
      match parenInner fuel r with
      | some (inner, rest) =>
        (parenInner fuel rest).map (fun p =>
          (mkGroup .parenG (mkLeaf .punct "(" :: inner ++ [mkLeaf .punct ")"]) :: p.1, p.2))
      | none => (parenInner fuel r).map (fun p => (t :: p.1, p.2))
    else (parenInner fuel r).map (fun p => (t :: p.1, p.2))

/-- Parenthesis grouping (`sqlparse` `group_parenthesis`): balanced matching;
an unmatched opening parenthesis stays a plain token. -/
def parenScan : Nat → List PTok → List PTok
  | 0, ts => ts
  | _ + 1, [] => []
  | fuel + 1, t :: r =>
    if t.isPunctVal "(" then
      match parenInner (r.length + 1) r with
      | some (inner, rest) =>
        mkGroup .parenG (mkLeaf .punct "(" :: inner ++ [mkLeaf .punct ")"]) ::
          parenScan fuel rest
      | none => t :: parenScan fuel r
    else t :: parenScan fuel r

/-- The keywords closing a WHERE region (`sqlparse` `sql.Where.M_CLOSE`). -/
def whereCloseKw : List String :=
  ["ORDER BY", "GROUP BY", "LIMIT", "UNION", "UNION ALL", "EXCEPT",
   "HAVING", "RETURNING", "INTO"]

/-- WHERE grouping (`sqlparse` `group_where`): from the WHERE keyword up to a
closing keyword or the end of the (sub)list. -/
def wherePass : Nat → List PTok → List PTok
  | 0, ts => ts
  | _ + 1, [] => []
  | fuel + 1, t :: r =>
    if t.isKwVal "WHERE" then
      let body := r.takeWhile (fun u => !(u.isKw && upperStr u.raw ∈ whereCloseKw))
      let rest := r.dropWhile (fun u => !(u.isKw && upperStr u.raw ∈ whereCloseKw))
      mkGroup .whereK (t :: body) :: wherePass fuel rest
    else t :: wherePass fuel r

def PTok.isNameLeaf (t : PTok) : Bool := t.kind = .leafK .name

/-- Dotted-name grouping (`sqlparse` `group_period`): `a . b` with adjacent
tokens becomes one `Identifier`. -/
def periodPass : List PTok → List PTok
  | t1 :: t2 :: t3 :: r =>
    if t1.isNameLeaf && t2.isPunctVal "." then
      if t3.isNameLeaf || t3.kind = .leafK .wildcard then
        mkGroup .identG [t1, t2, t3] :: periodPass r
      else
        mkGroup .identG [t1, t2] :: periodPass (t3 :: r)
    else t1 :: periodPass (t2 :: t3 :: r)
  | t1 :: t2 :: r =>
    if t1.isNameLeaf && t2.isPunctVal "." then
      [mkGroup .identG [t1, t2]] ++ r.map id
    else t1 :: t2 :: r
  | ts => ts

/-- Single-name grouping (`sqlparse` `group_identifiers`): each lone `Name`
leaf becomes an `Identifier` (builtins are not wrapped). -/
def identPass (ts : List PTok) : List PTok :=
  ts.map (fun t => if t.isNameLeaf then mkGroup .identG [t] else t)

/-- Alias grouping (`sqlparse` `group_aliased`): an `Identifier` or
`Parenthesis` followed (modulo whitespace) by an `Identifier` absorbs it. -/
def aliasPass : Nat → List PTok → List PTok
  | 0, ts => ts
  | _ + 1, [] => []
  | fuel + 1, t :: r =>
    if t.kind = .identG || t.kind = .parenG then
      let wsrun := r.takeWhile PTok.isWS
      match r.dropWhile PTok.isWS with
      | u :: r2 =>
        if u.kind = .identG then
          (match t with
           | .node .identG _ ch => mkGroup .identG (ch ++ wsrun ++ [u])
           | _ => mkGroup .identG (t :: wsrun ++ [u])) :: aliasPass fuel r2
        else t :: aliasPass fuel r
      | [] => t :: aliasPass fuel r
    else t :: aliasPass fuel r

/-- Token classes that may be members of an identifier list
(`sqlparse` `group_identifier_list`). -/
def listable (t : PTok) : Bool :=
  t.kind = .identG || t.kind = .identListG ||
  (match t.kind with
   | .leafK tt =>
     tt = .num || tt = .strLit || tt = .name || tt = .builtin ||
     tt = .kw || tt = .wildcard
   | _ => false)

/-- Absorbs `ws* , ws* member` repetitions; returns the collected span and
the rest. -/
def listAbsorb : Nat → List PTok → List PTok → (List PTok × List PTok)
  | 0, acc, r => (acc, r)
  | fuel + 1, acc, r =>
    let wsrun := r.takeWhile PTok.isWS
    match r.dropWhile PTok.isWS with
    | c :: r2 =>
      if c.isPunctVal "," then
        let ws2 := r2.takeWhile PTok.isWS
        match r2.dropWhile PTok.isWS with
        | u :: r4 =>
          if listable u then
            listAbsorb fuel (acc ++ wsrun ++ [c] ++ ws2 ++ [u]) r4
          else (acc, r)
        | [] => (acc, r)
      else (acc, r)
    | [] => (acc, r)

/-- Identifier-list grouping (`sqlparse` `group_identifier_list`). -/
def listPass : Nat → List PTok → List PTok
  | 0, ts => ts
  | _ + 1, [] => []
  | fuel + 1, t :: r =>
    if listable t then
      match listAbsorb (r.length + 1) [t] r with
      | (seg, rest) =>
        if seg.length > 1 then mkGroup .identListG seg :: listPass fuel rest
        else t :: listPass fuel r
    else t :: listPass fuel r

/-- The passes that run after WHERE grouping on each token sublist. -/
def latePasses (ts : List PTok) : List PTok :=
  let l1 := identPass (periodPass ts)
  let l2 := aliasPass (l1.length + 1) l1
  listPass (l2.length + 1) l2

/-- Applies the grouping passes at every nesting level: parenthesis contents
recursively, then WHERE regions, then the identifier passes (also inside the
WHERE group's children, as `sqlparse`'s passes recurse into every group). -/
def deepGroup : Nat → List PTok → List PTok
  | 0, ts => ts
  | fuel + 1, ts =>
    let ts1 := ts.map (fun t =>
      match t with
      | .node .parenG _ ch =>
        mkGroup .parenG (mkLeaf .punct "(" ::
          deepGroup fuel (ch.drop 1).dropLast ++ [mkLeaf .punct ")"])
      | _ => t)
    let ts2 := wherePass (ts1.length + 1) ts1
    let ts3 := ts2.map (fun t =>
      match t with
      | .node .whereK _ ch => mkGroup .whereK (latePasses ch)
      | _ => t)
    latePasses ts3

/-- Model of `sqlparse.parse(sql)[0]`: tokenize, group.  `sqlparse.parse('')` returns
an empty tuple of statements, so indexing `[0]` raises `IndexError`; this is
modelled by `none`. -/
def sqlparseStmt (s : String) : Option (List PTok) :=
  let toks := tokenize s
  if toks.isEmpty then none
  else
    let l1 := parenScan (toks.length + 1) toks
    some (deepGroup (toks.length + 1) l1)

/-! ### Name and alias resolution (`sqlparse` `Identifier` methods) -/

def nameTyped (kws : Bool) (t : PTok) : Bool :=
  t.isNameLeaf || t.kind = .leafK .wildcard || (kws && t.isKw)

/-- The four name-resolution queries of `sqlparse`'s `Identifier` methods:
`_get_first_name`, `get_alias`, `get_real_name`, `get_name`. -/
inductive NameQ where
  | fstName (kws : Bool) (ts : List PTok)
  | qAlias (ch : List PTok)
  | qReal (ch : List PTok)
  | qName (t : PTok)

/-- Resolver for the `sqlparse` `Identifier` name methods, structural on an
ample fuel (the call chains descend the shallow identifier nesting only):
`_get_first_name` returns the first `Name`/`Wildcard` (plus `Keyword` when
requested) leaf, descending into the first nested `Identifier` via
`get_name`, which ends the scan even when it yields nothing;
`get_alias` is the name after an `AS` keyword, else — when the group has
more than two tokens and contains whitespace — the first name scanning from
the right; `get_real_name` is the first name after the dot when the group
contains one, else the first name; `get_name` is
`get_alias() or get_real_name()` (Python `or`: an empty or missing alias
falls through to the real name). -/
def nameRes : Nat → NameQ → Option String
  | 0, _ => none
  | fuel + 1, .fstName kws ts =>
    match ts.find? (fun t => nameTyped kws t || t.kind = .identG) with
    | some t => if nameTyped kws t then some t.raw else nameRes fuel (.qName t)
    | none => none
  | fuel + 1, .qAlias ch =>
    match ch.dropWhile (fun t => !(t.isKwVal "AS")) with
    | _ :: after => nameRes fuel (.fstName true after)
    | [] =>
      if ch.length > 2 && ch.any PTok.isWS then nameRes fuel (.fstName false ch.reverse)
      else none
  | fuel + 1, .qReal ch =>
    let scope :=
      if ch.any (·.isPunctVal ".") then
        (ch.dropWhile (fun u => !(u.isPunctVal "."))).drop 1
      else ch
    nameRes fuel (.fstName false scope)
  | fuel + 1, .qName t =>
    match t with
    | .node .identG _ ch =>
      match nameRes fuel (.qAlias ch) with
      | some a => if a.isEmpty then nameRes fuel (.qReal ch) else some a
      | none => nameRes fuel (.qReal ch)
    | _ => none

/-- Ample recursion budget for the shallow trees this model builds. -/
def nameFuel : Nat := 24

def tokRealName (t : PTok) : Option String :=
  match t with
  | .node .identG _ ch => nameRes nameFuel (.qReal ch)
  | _ => none

def tokAlias (t : PTok) : Option String :=
  match t with
  | .node .identG _ ch => nameRes nameFuel (.qAlias ch)
  | _ => none

/-- Python `x or y` for a possibly missing string: empty and missing both
fall through to the default. -/
def pyOrStr (o : Option String) (d : String) : String :=
  match o with
  | some s => if s.isEmpty then d else s
  | none => d

/-! ### Ports of the `SQLParser` static methods -/

/-- Port of `SQLParser.extract_table_from_subquery` (source lines 9–20), scanning the
given subquery token list for the first table named after FROM. -/
def etfsGo : Bool → List PTok → Option String
  | _, [] => none
  | true, t :: r =>
    match t.kind with
    | .identG => tokRealName t
    | .identListG =>
      match t.children.filter (fun m => !m.isWS && !m.isPunctVal ",") with
      | m :: _ => tokRealName m
      | [] => none
    | _ => etfsGo true r
  | false, t :: r =>
    if t.isKwVal "FROM" then etfsGo true r else etfsGo false r

def extract_table_from_subquery (ts : List PTok) : Option String :=
  etfsGo false ts

/-- Port of `SQLParser.process_identifier` (source lines 22–30). -/
def process_identifier (t : PTok) : Option String :=
  match tokAlias t with
  | some al =>
    match t.children with
    | sub :: _ =>
      if sub.kind = .parenG then
        some ("sub:" ++ pyOrStr (extract_table_from_subquery sub.children) al)
      else tokRealName t
    | [] => tokRealName t
  | none => tokRealName t

/-- Port of `SQLParser.is_join_clause` (source lines 52–60): `re.search` with a
pattern whose only mandatory part is `JOIN\b`, case-insensitively. -/
def joinScanB : List Char → Bool
  | [] => false
  | c :: cs =>
    (ciStarts "JOIN".data (c :: cs) && boundaryOk ((c :: cs).drop 4)) || joinScanB cs

def is_join_clause (s : String) : Bool := joinScanB s.data

/-- Port of `SQLParser.extract_tables` (source lines 32–50).  `get_real_name` can
yield nothing in Python (`None`); entries are therefore `Option String`. -/
def etGo (kw : String) (isJoin : Bool) : Bool → List PTok → List (Option String)
  | _, [] => []
  | true, t :: r =>
    match t.kind with
    | .identG => process_identifier t :: etGo kw isJoin true r
    | .identListG =>
      (t.children.filter (fun m => !m.isWS && !m.isPunctVal ",")).map process_identifier
        ++ etGo kw isJoin true r
    | .leafK .kw =>
      if (isJoin && is_join_clause (upperStr t.raw)) || upperStr t.raw = "ON" then
        etGo kw isJoin true r
      else []
    | _ => etGo kw isJoin true r
  | false, t :: r =>
    if t.isKw then
      if isJoin && is_join_clause (upperStr t.raw) then etGo kw isJoin true r
      else if upperStr t.raw = kw then etGo kw isJoin true r
      else etGo kw isJoin false r
    else etGo kw isJoin false r

def extract_tables (stmt : List PTok) (kw : String) (isJoin : Bool) :
    List (Option String) :=
  etGo kw isJoin false stmt

def pyStrip (s : String) : String := ⟨stripSpaces s.data⟩

/-- Port of `SQLParser.extract_conditions` (source lines 85–91) for the default
clause type `Where`: joins the non-whitespace children of the first `Where`
group, dropping the WHERE keyword, and abstracts the result. -/
def extract_conditions (stmt : List PTok) : String :=
  match stmt.find? (fun t => t.kind = .whereK) with
  | some w =>
    let parts := (w.children.filter
      (fun t => !t.isWS && upperStr t.raw ≠ "WHERE")).map PTok.raw
    abstract_conditions (pyStrip (String.intercalate " " parts))
  | none => ""

/-- Port of `SQLParser.extract_clause` (source lines 112–126): items are tokens with
`ttype` in `[Name.Builtin, None, Keyword.Order]`; a plain keyword other than
the clause name or ASC/DESC ends the scan. -/
def ecGo (clause : String) : Bool → List PTok → List String
  | _, [] => []
  | true, t :: r =>
    if t.isKw && ¬(upperStr t.raw = clause ∨ upperStr t.raw = "ASC" ∨
        upperStr t.raw = "DESC") then []
    else
      match t.kind with
      | .identG | .identListG | .parenG | .whereK => pyStrip t.raw :: ecGo clause true r
      | .leafK tt =>
        if tt = .builtin || tt = .kwOrder then pyStrip t.raw :: ecGo clause true r
        else ecGo clause true r
  | false, t :: r =>
    if t.isKw && upperStr t.raw = clause then ecGo clause true r
    else ecGo clause false r

def extract_clause (stmt : List PTok) (clause : String) : List String :=
  ecGo clause false stmt

/-- Python `str.strip('()')`. -/
def pyStripParens (s : String) : String :=
  let isP : Char → Bool := fun c => c = '(' || c = ')'
  ⟨((s.data.dropWhile isP).reverse.dropWhile isP).reverse⟩

/-- Port of `SQLParser.extract_subquery_info` (source lines 93–101): strip the outer
parenthesis characters, re-parse, extract tables and conditions.  A parse
with no statements makes the Python indexing raise, modelled by `none`. -/
def extract_subquery_info (sub : String) : Option (List (Option String) × String) :=
  match sqlparseStmt (pyStripParens sub) with
  | none => none
  | some stmt => some (extract_tables stmt "FROM" false, extract_conditions stmt)

/-- The replacement `f"(sub:{','.join(tables)}|{sub_conditions})"`; joining a
table list containing Python `None` raises, modelled by `none`. -/
def replOfSub (tabs : List (Option String)) (conds : String) : Option (List Char) :=
  match tabs.mapM id with
  | some ts =>
    some (("(sub:" ++ String.intercalate "," ts ++ "|" ++ conds ++ ")").data)
  | none => none

/-- Scanner for `re.sub(r'\(SELECT[^)]+\)', replace_subquery, conditions,
flags=re.IGNORECASE)` (source lines 103–110): the span runs from `(SELECT`
to the first closing parenthesis. -/
def subqAux : Nat → List Char → Option (List Char)
  | 0, cs => some cs
  | _ + 1, [] => some []
  | fuel + 1, c :: cs =>
    if c = '(' && ciStarts "SELECT".data cs then
      match (cs.drop 6).takeWhile (· ≠ ')'), (cs.drop 6).dropWhile (· ≠ ')') with
      | body@(_ :: _), ')' :: after =>
        match extract_subquery_info ⟨'(' :: cs.take 6 ++ body ++ [')']⟩ with
        | none => none
        | some (tabs, conds) =>
          match replOfSub tabs conds with
          | none => none
          | some repl => (subqAux fuel after).map (fun tail => repl ++ tail)
      | _, _ => (subqAux fuel cs).map (c :: ·)
    else (subqAux fuel cs).map (c :: ·)

def process_subqueries (s : String) : Option String :=
  (subqAux (s.data.length + 1) s.data).map (fun cs => ⟨cs⟩)

/-- The `ParsedInfo` dictionary returned by `SQLParser.parse_sql`. -/
structure ParsedInfo where
  from_tables : List (Option String)
  join_tables : List (Option String)
  where_conditions : String
  group_by : List String
  order_by : List String
deriving DecidableEq, Repr

/-- Port of `SQLParser.parse_sql` (source lines 128–144); `none` models an uncaught
Python exception (empty parse result, or a failure inside
`process_subqueries`). -/
def parse_sql (s : String) : Option ParsedInfo :=
  match sqlparseStmt s with
  | none => none
  | some stmt =>
    match process_subqueries (extract_conditions stmt) with
    | none => none
    | some wc =>
      some { from_tables := extract_tables stmt "FROM" false
             join_tables := extract_tables stmt "JOIN" true
             where_conditions := wc
             group_by := extract_clause stmt "GROUP BY"
             order_by := extract_clause stmt "ORDER BY" }

/-- Python string comparison: lexicographic on code points. -/
def charListLe : List Char → List Char → Bool
  | [], _ => true
  | _ :: _, [] => false
  | a :: ta, b :: tb => if a = b then charListLe ta tb else decide (a < b)

def pyStrLe (a b : String) : Bool := charListLe a.data b.data

/-- The order underlying Python string comparison, as a relation. -/
def pyLeRel (a b : String) : Prop := pyStrLe a b = true

instance : DecidableRel pyLeRel := fun a b =>
  inferInstanceAs (Decidable (pyStrLe a b = true))

/-- Python `sorted` on a list of strings (a stable sort; for the total
antisymmetric order on strings every correct sort yields this result). -/
def pySorted (l : List String) : List String := l.insertionSort pyLeRel

/-- Port of `SQLParser.categorize_sql` (source lines 162–171): the fingerprint tuple
with sorted `from`/`join` components.  Sorting a table list containing a
Python `None` entry would raise, modelled by `none`. -/
def categorize_sql (s : String) :
    Option (List String × List String × String × List String × List String) :=
  match parse_sql s with
  | none => none
  | some pi =>
    match pi.from_tables.mapM id, pi.join_tables.mapM id with
    | some ft, some jt =>
      some (pySorted ft, pySorted jt, pi.where_conditions, pi.group_by, pi.order_by)
    | _, _ => none

/-! ### Auxiliary notions for span detection and nesting depth -/

/-- The first span matched by the `process_subqueries` pattern
`\(SELECT[^)]+\)` (source line 110): from `(SELECT` to the first closing
parenthesis. -/
def firstSubqSpanAux : List Char → Option (List Char)
  | [] => none
  | c :: cs =>
    if c = '(' && ciStarts "SELECT".data cs then
      match (cs.drop 6).takeWhile (· ≠ ')'), (cs.drop 6).dropWhile (· ≠ ')') with
      | _ :: _, ')' :: _ =>
        some ('(' :: cs.take 6 ++ (cs.drop 6).takeWhile (· ≠ ')') ++ [')'])
      | _, _ => firstSubqSpanAux cs
    else firstSubqSpanAux cs

def firstSubqSpan (s : String) : Option String :=
  (firstSubqSpanAux s.data).map (fun cs => ⟨cs⟩)

/-- Balanced-parenthesis span starting at an opening parenthesis, as the
spec's ParenGroup scanning prescribes for subquery extraction. -/
def balAux : Nat → Nat → List Char → Option (List Char)
  | 0, _, _ => none
  | _ + 1, _, [] => none
  | fuel + 1, d, c :: cs =>
    if c = '(' then (balAux fuel (d + 1) cs).map (c :: ·)
    else if c = ')' then
      if d = 1 then some [')'] else (balAux fuel (d - 1) cs).map (c :: ·)
    else (balAux fuel d cs).map (c :: ·)

/-- The full balanced span of the first parenthesised SELECT, per the spec's
balanced-paren ParenGroup description of subquery-span detection. -/
def balSpanAux : Nat → List Char → Option (List Char)
  | 0, _ => none
  | _ + 1, [] => none
  | fuel + 1, c :: cs =>
    if c = '(' && ciStarts "SELECT".data cs then balAux (cs.length + 2) 0 (c :: cs)
    else balSpanAux fuel cs

def balancedSelectSpan (s : String) : Option String :=
  (balSpanAux (s.data.length + 1) s.data).map (fun cs => ⟨cs⟩)

/-- Maximum parenthesis nesting depth of a string. -/
def maxDepthAux : List Char → Nat → Nat → Nat
  | [], _, m => m
  | c :: cs, d, m =>
    if c = '(' then maxDepthAux cs (d + 1) (max m (d + 1))
    else if c = ')' then maxDepthAux cs (d - 1) m
    else maxDepthAux cs d m

def maxParenDepth (s : String) : Nat := maxDepthAux s.data 0 0

/-- A WHERE condition with subquery/IN nesting of the given depth. -/
def deepNest : Nat → String
  | 0 => "v > 100"
  | k + 1 => "id IN (SELECT id FROM t WHERE " ++ deepNest k ++ ")"

/-- The same text with every numeric literal abstracted to `9`. -/
def deepNest9 : Nat → String
  | 0 => "v > 9"
  | k + 1 => "id IN (SELECT id FROM t WHERE " ++ deepNest9 k ++ ")"

/-! ### Rendered IN-list bodies and digit-run predicates used by the theorems -/

/-- A comma-separated numeric IN-list body of `n + 1` elements. -/
def numListR : Nat → List Char
  | 0 => ['0']
  | n + 1 => '0' :: ',' :: ' ' :: numListR n

/-- The numeric body after literal abstraction. -/
def nineListR : Nat → List Char
  | 0 => ['9']
  | n + 1 => '9' :: ',' :: ' ' :: nineListR n

/-- A comma-separated quoted-string IN-list body of `n + 1` elements. -/
def strListR : Nat → List Char
  | 0 => ['\'', 'A', '\'']
  | n + 1 => '\'' :: 'A' :: '\'' :: ',' :: ' ' :: strListR n

/-- The quoted body after literal abstraction. -/
def strListX : Nat → List Char
  | 0 => ['\'', 'X', '\'']
  | n + 1 => '\'' :: 'X' :: '\'' :: ',' :: ' ' :: strListX n

/-- Every digit run in the list is immediately preceded by a word character
(`prevW` carries whether the previous character is one): exactly the inputs
in which `\b\d+(?:\.\d+)?\b` can never find a match start. -/
def noBareDigits : Bool → List Char → Bool
  | _, [] => true
  | prevW, c :: cs => (!c.isDigit || prevW) && noBareDigits (isWordChar c) cs

/-! ## Claim theorems -/

set_option maxRecDepth 1000000
set_option maxHeartbeats 2000000

/-- Claim C1 — the claim asserts that two SELECT statements identical except
for the literal values in their WHERE clause fingerprint to the same
`where_condition`.  The code violates this: the numeric literals `0.5` and
`.5` (the same value, both valid SQL decimals and both single `sqlparse`
number tokens) abstract differently, because `\b\d+(?:\.\d+)?\b` needs a
word boundary before the first digit and `.5` has none, so only its `5` is
replaced.  The two statements below are identical except for that numeric
literal, yet their fingerprints carry `x = 9` and `x = .9`. -/
theorem C1_literal_invariance_fails :
    categorize_sql "SELECT * FROM t1 WHERE x = 0.5" =
      some (["t1"], [], "x = 9", [], []) ∧
    categorize_sql "SELECT * FROM t1 WHERE x = .5" =
      some (["t1"], [], "x = .9", [], []) ∧
    ("x = 9" : String) ≠ "x = .9" := by
  refine ⟨by decide, by decide, by decide⟩

/-- Claim C2 — the subquery end-to-end scenario: the fingerprint of
`SELECT * FROM table6 WHERE id IN (SELECT id FROM table7 WHERE value > 100)`
has `from_tables = ["table6"]`, empty `join_tables`, empty `group_by` and
`order_by`, and `where_condition` exactly `id IN (sub:table7|value > 9)`,
the subquery being replaced by the compact `(sub:<tables>|<condition>)`
form. -/
theorem C2_subquery_fingerprint :
    categorize_sql
        "SELECT * FROM table6 WHERE id IN (SELECT id FROM table7 WHERE value > 100)" =
      some (["table6"], [], "id IN (sub:table7|value > 9)", [], []) := by decide

/-- Claim C3 — the claim asserts `canonicalize (canonicalize x) = canonicalize x`
for every condition text.  The code violates it: on `ip = 1.2.3.4` the
numeric pass rewrites `1.2`→`9` and `3.4`→`9`, producing `ip = 9.9`, and a
second run matches `9.9` as a single decimal, producing `ip = 9`.  So
re-running literal abstraction on an already-abstracted string changes it. -/
theorem C3_idempotence_fails :
    abstract_conditions "ip = 1.2.3.4" = "ip = 9.9" ∧
    abstract_conditions (abstract_conditions "ip = 1.2.3.4") = "ip = 9" ∧
    abstract_conditions (abstract_conditions "ip = 1.2.3.4") ≠
      abstract_conditions "ip = 1.2.3.4" := by
  refine ⟨by decide, by decide, by decide⟩

/-- Claim C6 — the claim asserts that subquery-span detection extracts the
full balanced span when the subquery's own predicate contains nested
parentheses.  The code's pattern `\(SELECT[^)]+\)` stops at the first
closing parenthesis instead: on the canonicalised condition
`EXISTS (SELECT 9 FROM t2 WHERE (a = 9))` it matches only
`(SELECT 9 FROM t2 WHERE (a = 9)` + `)`, truncating the balanced span, and
the pipeline splices the mangled `EXISTS (sub:t2|( a = 9))` (the inner
predicate's parenthesis is left dangling and re-joined with extra
spacing). -/
theorem C6_truncated_subquery_span :
    firstSubqSpan "EXISTS (SELECT 9 FROM t2 WHERE (a = 9))" =
      some "(SELECT 9 FROM t2 WHERE (a = 9)" ∧
    balancedSelectSpan "EXISTS (SELECT 9 FROM t2 WHERE (a = 9))" =
      some "(SELECT 9 FROM t2 WHERE (a = 9))" ∧
    firstSubqSpan "EXISTS (SELECT 9 FROM t2 WHERE (a = 9))" ≠
      balancedSelectSpan "EXISTS (SELECT 9 FROM t2 WHERE (a = 9))" ∧
    process_subqueries "EXISTS (SELECT 9 FROM t2 WHERE (a = 9))" =
      some "EXISTS (sub:t2|( a = 9))" := by
  refine ⟨by decide, by decide, by decide, by decide⟩

/-- Claim C8 — the claim asserts that every non-SELECT input yields a
`ParsedInfo` of empty lists and empty strings without raising.  The code
violates both halves: `sqlparse.parse('')` yields no statement, so
`parse_sql('')` raises `IndexError` (modelled `none`); and for text with a
WHERE clause but no SELECT, e.g. `WHERE b = 2`, the returned `ParsedInfo`
carries the non-empty `where_conditions = "b = 9"`.  A keyword-free
non-SELECT input such as `hello` does produce the all-empty record. -/
theorem C8_malformed_input_not_uniform :
    parse_sql "" = none ∧
    parse_sql "WHERE b = 2" = some ⟨[], [], "b = 9", [], []⟩ ∧
    parse_sql "hello" = some ⟨[], [], "", [], []⟩ := by
  refine ⟨by decide, by decide, by decide⟩

/-- Claim C9 — the claim asserts an explicit nesting bound (default 16) with a
distinct `RecursionLimitExceeded` failure beyond it.  No such bound or error
exists in the code: on a condition whose subquery/IN nesting depth is 17 the
canonicalizer terminates normally and returns an ordinary abstracted string
(the regex machinery simply leaves nesting levels beyond its one-level
IN-pattern unmatched). -/
theorem C9_no_recursion_limit :
    16 < maxParenDepth (deepNest 17) ∧
    abstract_conditions (deepNest 17) = deepNest9 17 := by
  refine ⟨by decide, by decide⟩

/-- Claim C5 — resolving a FROM entry `(subquery) AS alias`: on the
`sqlparse` identifier shape `[Parenthesis, whitespace, alias]` the code
returns `"sub:" ++` the first table found after the inner subquery's FROM
keyword, falling back to `"sub:" ++ alias` when that lookup yields nothing
(Python `subquery_table or alias`); concretely, the derived-table statement
fingerprints to `from_tables = ["sub:table8"]`, and a subquery without a
resolvable FROM (`(SELECT 1) q`) falls back to `["sub:q"]`. -/
theorem C5_subquery_from_entry :
    (∀ (ts : List PTok) (r rp w ra a : String),
      process_identifier (.node .identG r
        [.node .parenG rp ts, .node (.leafK .ws) w [],
         .node .identG ra [.node (.leafK .name) a []]]) =
        some ("sub:" ++ pyOrStr (extract_table_from_subquery ts) a)) ∧
    categorize_sql
        "SELECT * FROM (SELECT id, name FROM table8 WHERE status = 'active') subquery WHERE subquery.id > 10" =
      some (["sub:table8"], [], "subquery.id > 9", [], []) ∧
    categorize_sql "SELECT * FROM (SELECT 1) q WHERE q.x > 10" =
      some (["sub:q"], [], "q.x > 9", [], []) := by
  refine ⟨fun ts r rp w ra a => rfl, by decide, by decide⟩

/-! ### Order lemmas for Python string sorting (claim C7) -/

theorem charListLe_total (a b : List Char) :
    charListLe a b = true ∨ charListLe b a = true := by
  induction a generalizing b with
  | nil => left; rfl
  | cons x xs ih =>
    cases b with
    | nil => right; rfl
    | cons y ys =>
      by_cases hxy : x = y
      · subst hxy
        rcases ih ys with h | h
        · left; simpa [charListLe] using h
        · right; simpa [charListLe] using h
      · rcases lt_or_gt_of_ne hxy with h | h
        · left; simp [charListLe, hxy, h]
        · right; simp [charListLe, Ne.symm hxy, h]

theorem charListLe_trans (a b c : List Char) (hab : charListLe a b = true)
    (hbc : charListLe b c = true) : charListLe a c = true := by
  induction a generalizing b c with
  | nil => rfl
  | cons x xs ih =>
    cases b with
    | nil => simp [charListLe] at hab
    | cons y ys =>
      cases c with
      | nil => simp [charListLe] at hbc
      | cons z zs =>
        by_cases hxy : x = y <;> by_cases hyz : y = z
        · subst hxy; subst hyz
          simp only [charListLe, if_pos rfl] at hab hbc ⊢
          exact ih ys zs hab hbc
        · subst hxy
          simp only [charListLe, if_pos rfl, if_neg hyz] at hbc ⊢
          exact hbc
        · subst hyz
          simp only [charListLe, if_pos rfl, if_neg hxy] at hab ⊢
          exact hab
        · simp only [charListLe, if_neg hxy, if_neg hyz, decide_eq_true_eq] at hab hbc
          have hxz : x < z := lt_trans hab hbc
          simp [charListLe, ne_of_lt hxz, hxz]

theorem charListLe_antisymm (a b : List Char) (hab : charListLe a b = true)
    (hba : charListLe b a = true) : a = b := by
  induction a generalizing b with
  | nil =>
    cases b with
    | nil => rfl
    | cons y ys => simp [charListLe] at hba
  | cons x xs ih =>
    cases b with
    | nil => simp [charListLe] at hab
    | cons y ys =>
      by_cases hxy : x = y
      · subst hxy
        simp only [charListLe, if_pos rfl] at hab hba
        exact congrArg (x :: ·) (ih ys hab hba)
      · simp only [charListLe, if_neg hxy, if_neg (Ne.symm hxy),
          decide_eq_true_eq] at hab hba
        exact absurd hba (lt_asymm hab)

instance : IsTotal String pyLeRel :=
  ⟨fun a b => charListLe_total a.data b.data⟩

instance : IsTrans String pyLeRel :=
  ⟨fun a b c => charListLe_trans a.data b.data c.data⟩

instance : IsAntisymm String pyLeRel :=
  ⟨fun a b hab hba => String.ext (charListLe_antisymm a.data b.data hab hba)⟩

/-- Claim C7 — the lists `from_tables`/`join_tables` are sorted in the fingerprint with
duplicates retained: the sort component is invariant under permutation of
its input (so permuting comma-separated FROM tables yields the same
component), concretely the two permuted FROM lists fingerprint identically,
and a repeated FROM reference stays repeated (no deduplication). -/
theorem C7_sorted_from_tables :
    (∀ l₁ l₂ : List String, l₁.Perm l₂ → pySorted l₁ = pySorted l₂) ∧
    categorize_sql "SELECT * FROM table1, table2" =
      some (["table1", "table2"], [], "", [], []) ∧
    categorize_sql "SELECT * FROM table2, table1" =
      some (["table1", "table2"], [], "", [], []) ∧
    categorize_sql "SELECT * FROM table1, table1" =
      some (["table1", "table1"], [], "", [], []) := by
  refine ⟨fun l₁ l₂ h => ?_, by decide, by decide, by decide⟩
  apply List.eq_of_perm_of_sorted (r := pyLeRel)
  · exact ((List.perm_insertionSort pyLeRel l₁).trans h).trans
      (List.perm_insertionSort pyLeRel l₂).symm
  · exact List.sorted_insertionSort pyLeRel l₁
  · exact List.sorted_insertionSort pyLeRel l₂

/-- Witness for C7: the permutation-invariance conjunct applied to the
concrete permuted pair. -/
theorem C7_sorted_from_tables_witness :
    pySorted ["table2", "table1"] = pySorted ["table1", "table2"] :=
  C7_sorted_from_tables.1 ["table2", "table1"] ["table1", "table2"] (by decide)

/-! ### The numeric pass on identifier-embedded digits (claim C10) -/

theorem numAux_id_of_noBareDigits (cs : List Char) :
    ∀ (fuel : Nat) (prevW : Bool), noBareDigits prevW cs = true →
      numAux fuel prevW cs = cs := by
  induction cs with
  | nil => intro fuel prevW _; cases fuel <;> rfl
  | cons c cs ih =>
    intro fuel prevW h
    rw [noBareDigits, Bool.and_eq_true] at h
    cases fuel with
    | zero => rfl
    | succ f =>
      have hc : (!prevW && c.isDigit) = false := by
        rcases h with ⟨h1, _⟩
        cases hd : c.isDigit
        · simp
        · rw [hd] at h1; simp at h1; simp [h1]
      rw [numAux, hc]
      simp only [Bool.false_eq_true, if_false]
      exact congrArg (c :: ·) (ih f (isWordChar c) h.2)

/-- Claim C10 — the numeric-literal pass replaces only standalone digit runs:
whenever every digit in the condition text is embedded in an identifier
(immediately preceded by a word character), the pass is the identity, for
any fuel — in particular at the budget `abstract_conditions` uses; and in a
full canonicalization `table1`/`col2`/`col3` survive while the standalone
`5` becomes `9`. -/
theorem C10_embedded_digits_survive :
    (∀ (s : String) (fuel : Nat), noBareDigits false s.data = true →
      numAux fuel false s.data = s.data) ∧
    abstract_conditions "table1.col2 = 5" = "table1.col2 = 9" ∧
    abstract_conditions "table1.col2 > col3" = "table1.col2 > col3" := by
  refine ⟨fun s fuel h => numAux_id_of_noBareDigits s.data fuel false h,
    by decide, by decide⟩

/-- Witness for C10: the identity conjunct applied to the concrete condition
`table1.col2 > col3`, whose digits are all identifier-embedded. -/
theorem C10_embedded_digits_survive_witness :
    numAux ("table1.col2 > col3".data.length + 1) false "table1.col2 > col3".data =
      "table1.col2 > col3".data :=
  C10_embedded_digits_survive.1 "table1.col2 > col3"
    ("table1.col2 > col3".data.length + 1) (by decide)

/-! ### IN-list renderers and scanner lemmas (claim C4) -/

theorem numListR_length (n : Nat) : (numListR n).length = 3 * n + 1 := by
  induction n with
  | zero => rfl
  | succ n ih => simp [numListR, ih]; omega

theorem nineListR_mem (n : Nat) :
    ∀ c ∈ nineListR n, c = '9' ∨ c = ',' ∨ c = ' ' := by
  induction n with
  | zero => intro c hc; simp [nineListR] at hc; simp [hc]
  | succ n ih =>
    intro c hc
    simp only [nineListR, List.mem_cons] at hc
    rcases hc with h | h | h | h
    · simp [h]
    · simp [h]
    · simp [h]
    · exact ih c h

theorem strListR_length (n : Nat) : (strListR n).length = 5 * n + 3 := by
  induction n with
  | zero => rfl
  | succ n ih => simp [strListR, ih]; omega

theorem strListR_mem (n : Nat) :
    ∀ c ∈ strListR n, c = '\'' ∨ c = 'A' ∨ c = ',' ∨ c = ' ' := by
  induction n with
  | zero =>
    intro c hc
    simp only [strListR, List.mem_cons, List.not_mem_nil, or_false] at hc
    rcases hc with h | h | h <;> simp [h]
  | succ n ih =>
    intro c hc
    simp only [strListR, List.mem_cons] at hc
    rcases hc with h | h | h | h | h | h
    · simp [h]
    · simp [h]
    · simp [h]
    · simp [h]
    · simp [h]
    · exact ih c h

theorem strListX_mem (n : Nat) :
    ∀ c ∈ strListX n, c = '\'' ∨ c = 'X' ∨ c = ',' ∨ c = ' ' := by
  induction n with
  | zero =>
    intro c hc
    simp only [strListX, List.mem_cons, List.not_mem_nil, or_false] at hc
    rcases hc with h | h | h <;> simp [h]
  | succ n ih =>
    intro c hc
    simp only [strListX, List.mem_cons] at hc
    rcases hc with h | h | h | h | h | h
    · simp [h]
    · simp [h]
    · simp [h]
    · simp [h]
    · simp [h]
    · exact ih c h

theorem numAux_nil (fuel : Nat) (prevW : Bool) : numAux fuel prevW [] = [] := by
  cases fuel <;> rfl

/-- Stepping the numeric scanner over a non-digit character. -/
theorem numAux_cons_plain (fuel : Nat) (prevW : Bool) (c : Char) (cs : List Char)
    (h : c.isDigit = false) :
    numAux (fuel + 1) prevW (c :: cs) = c :: numAux fuel (isWordChar c) cs := by
  simp [numAux, h]

/-- Stepping the numeric scanner over `'0'` followed by a comma: a standalone
digit with a boundary after it, replaced by `9`. -/
theorem numAux_zero_comma (fuel : Nat) (cs : List Char) :
    numAux (fuel + 1) false ('0' :: ',' :: cs) = '9' :: numAux fuel true (',' :: cs) := by
  have h0 : ('0').isDigit = true := by decide
  have hc : (',').isDigit = false := by decide
  simp [numAux, List.dropWhile, h0, hc, boundaryOk, isWordChar]

/-- Stepping the numeric scanner over `'0'` followed by the closing
parenthesis. -/
theorem numAux_zero_paren (fuel : Nat) (cs : List Char) :
    numAux (fuel + 1) false ('0' :: ')' :: cs) = '9' :: numAux fuel true (')' :: cs) := by
  have h0 : ('0').isDigit = true := by decide
  have hc : (')').isDigit = false := by decide
  simp [numAux, List.dropWhile, h0, hc, boundaryOk, isWordChar]

/-- The numeric pass turns the rendered numeric body into nines. -/
theorem numAux_numListR (n : Nat) :
    ∀ fuel : Nat, 3 * n + 2 ≤ fuel →
      numAux fuel false (numListR n ++ [')']) = nineListR n ++ [')'] := by
  induction n with
  | zero =>
    intro fuel h
    obtain ⟨f, rfl⟩ : ∃ f, fuel = f + 2 := ⟨fuel - 2, by omega⟩
    rw [numListR, nineListR]
    show numAux (f + 1 + 1) false ('0' :: ')' :: []) = '9' :: ')' :: []
    rw [numAux_zero_paren]
    rw [numAux_cons_plain _ _ _ _ (by decide)]
    rw [numAux_nil]
  | succ n ih =>
    intro fuel h
    obtain ⟨f, rfl⟩ : ∃ f, fuel = f + 3 := ⟨fuel - 3, by omega⟩
    rw [numListR, nineListR]
    show numAux (f + 2 + 1) false ('0' :: ',' :: ' ' :: (numListR n ++ [')'])) = _
    rw [numAux_zero_comma]
    rw [numAux_cons_plain _ _ _ _ (by decide)]
    rw [numAux_cons_plain _ _ _ _ (by decide)]
    have hw : isWordChar ' ' = false := by decide
    rw [hw]
    rw [ih f (by omega)]
    rfl

/-- The numeric pass is the identity on lists without digits. -/
theorem numAux_id_of_noDigit (cs : List Char) :
    ∀ (fuel : Nat) (prevW : Bool), (∀ c ∈ cs, c.isDigit = false) →
      numAux fuel prevW cs = cs := by
  induction cs with
  | nil => intro fuel prevW _; exact numAux_nil fuel prevW
  | cons c cs ih =>
    intro fuel prevW h
    cases fuel with
    | zero => rfl
    | succ f =>
      rw [numAux_cons_plain f prevW c cs (h c (by simp))]
      rw [ih f (isWordChar c) (fun d hd => h d (by simp [hd]))]

theorem quoteAux_nil (q : Char) (fuel : Nat) : quoteAux q fuel [] = [] := by
  cases fuel <;> rfl

/-- The quote pass is the identity on lists without the quote character. -/
theorem quoteAux_id (q : Char) (cs : List Char) :
    ∀ fuel : Nat, (∀ c ∈ cs, c ≠ q) → quoteAux q fuel cs = cs := by
  induction cs with
  | nil => intro fuel _; exact quoteAux_nil q fuel
  | cons c cs ih =>
    intro fuel h
    cases fuel with
    | zero => rfl
    | succ f =>
      have hc : (c = q) = False := by simp [h c (by simp)]
      simp only [quoteAux, hc, if_false]
      rw [ih f (fun d hd => h d (by simp [hd]))]

/-- Stepping the single-quote pass over a non-quote character. -/
theorem quoteAux_cons_plain (fuel : Nat) (c : Char) (cs : List Char)
    (h : ¬c = '\'') :
    quoteAux '\'' (fuel + 1) (c :: cs) = c :: quoteAux '\'' fuel cs := by
  simp [quoteAux, h]

/-- Stepping the single-quote pass over the literal `'A'`: the span closes at
the first later quote and is replaced by `'X'`. -/
theorem quoteAux_span_A (fuel : Nat) (cs : List Char) :
    quoteAux '\'' (fuel + 1) ('\'' :: 'A' :: '\'' :: cs) =
      '\'' :: 'X' :: '\'' :: quoteAux '\'' fuel cs := by
  have hA : ¬('A' = '\'') := by decide
  simp [quoteAux, List.contains, List.dropWhile, hA]

/-- The single-quote pass abstracts the rendered quoted body. -/
theorem quoteAux_strListR (n : Nat) :
    ∀ fuel : Nat, 3 * n + 2 ≤ fuel →
      quoteAux '\'' fuel (strListR n ++ [')']) = strListX n ++ [')'] := by
  induction n with
  | zero =>
    intro fuel h
    obtain ⟨f, rfl⟩ : ∃ f, fuel = f + 2 := ⟨fuel - 2, by omega⟩
    rw [strListR, strListX]
    show quoteAux '\'' (f + 1 + 1) ('\'' :: 'A' :: '\'' :: [')']) = _
    rw [quoteAux_span_A]
    rw [quoteAux_cons_plain _ _ _ (by decide), quoteAux_nil]
    rfl
  | succ n ih =>
    intro fuel h
    obtain ⟨f, rfl⟩ : ∃ f, fuel = f + 3 := ⟨fuel - 3, by omega⟩
    rw [strListR, strListX]
    show quoteAux '\'' (f + 2 + 1) ('\'' :: 'A' :: '\'' :: ',' :: ' ' :: (strListR n ++ [')'])) = _
    rw [quoteAux_span_A]
    rw [quoteAux_cons_plain _ _ _ (by decide)]
    rw [quoteAux_cons_plain _ _ _ (by decide)]
    rw [ih f (by omega)]
    rfl

theorem boolAux_nil (fuel : Nat) (prevW : Bool) : boolAux fuel prevW [] = [] := by
  cases fuel <;> rfl

/-- The boolean pass is the identity on lists without `T`/`F` characters. -/
theorem boolAux_id (cs : List Char) :
    ∀ (fuel : Nat) (prevW : Bool),
      (∀ c ∈ cs, c.toUpper ≠ 'T' ∧ c.toUpper ≠ 'F') →
      boolAux fuel prevW cs = cs := by
  induction cs with
  | nil => intro fuel prevW _; exact boolAux_nil fuel prevW
  | cons c cs ih =>
    intro fuel prevW h
    cases fuel with
    | zero => rfl
    | succ f =>
      have hT : ciStarts "TRUE".data (c :: cs) = false := by
        show ('T' = c.toUpper && ciStarts "RUE".data cs) = false
        simp [(h c (by simp)).1.symm]
      have hF : ciStarts "FALSE".data (c :: cs) = false := by
        show ('F' = c.toUpper && ciStarts "ALSE".data cs) = false
        simp [(h c (by simp)).2.symm]
      simp only [boolAux, hT, hF, Bool.and_false, Bool.false_and,
        Bool.and_self, Bool.false_eq_true, if_false]
      rw [ih f (isWordChar c) (fun d hd => h d (by simp [hd]))]

theorem nullAux_nil (fuel : Nat) (prevW : Bool) : nullAux fuel prevW [] = [] := by
  cases fuel <;> rfl

/-- The NULL pass is the identity on lists without `U` characters (the
pattern `NULL` cannot match without its second letter). -/
theorem nullAux_id (cs : List Char) :
    ∀ (fuel : Nat) (prevW : Bool), (∀ c ∈ cs, c.toUpper ≠ 'U') →
      nullAux fuel prevW cs = cs := by
  induction cs with
  | nil => intro fuel prevW _; exact nullAux_nil fuel prevW
  | cons c cs ih =>
    intro fuel prevW h
    cases fuel with
    | zero => rfl
    | succ f =>
      have hN : ciStarts "NULL".data (c :: cs) = false := by
        show ('N' = c.toUpper && ciStarts "ULL".data cs) = false
        cases cs with
        | nil => simp [ciStarts]
        | cons d ds =>
          have : ('U' = d.toUpper) = False := by
            simp [(h d (by simp)).symm]
          show ('N' = c.toUpper && ('U' = d.toUpper && ciStarts "LL".data ds)) = false
          simp [this]
      simp only [nullAux, hN, Bool.and_false, Bool.false_and, Bool.false_eq_true, if_false]
      rw [ih f (isWordChar c) (fun d hd => h d (by simp [hd]))]

/-- Evaluating `inContent` on a parenthesis-free body closed by `)`. -/
theorem inContent_flat (cs : List Char) :
    ∀ fuel : Nat, cs.length + 1 ≤ fuel →
      (∀ c ∈ cs, c ≠ '(' ∧ c ≠ ')') →
      inContent fuel (cs ++ [')']) = some (cs, []) := by
  induction cs with
  | nil =>
    intro fuel hf _
    obtain ⟨f, rfl⟩ : ∃ f, fuel = f + 1 := ⟨fuel - 1, by omega⟩
    rfl
  | cons c cs ih =>
    intro fuel hf h
    obtain ⟨f, rfl⟩ : ∃ f, fuel = f + 1 := ⟨fuel - 1, by omega⟩
    have h1 : (c = ')') = False := by simp [(h c (by simp)).2]
    have h2 : (c = '(') = False := by simp [(h c (by simp)).1]
    simp only [inContent, List.cons_append, List.append_eq, h1, h2, if_false]
    rw [ih f (by simpa using hf) (fun d hd => h d (by simp [hd]))]
    rfl

/-- The test `containsCI` is false when no character matches the pattern head. -/
theorem containsCI_false_of_head (p : Char) (ps cs : List Char)
    (h : ∀ c ∈ cs, p ≠ c.toUpper) : containsCI (p :: ps) cs = false := by
  induction cs with
  | nil => rfl
  | cons c cs ih =>
    show (ciStarts (p :: ps) (c :: cs) || containsCI (p :: ps) cs) = false
    have h1 : (p = c.toUpper) = False := by simp [h c (by simp)]
    have h2 := ih (fun d hd => h d (by simp [hd]))
    show ((p = c.toUpper && ciStarts ps cs) || containsCI (p :: ps) cs) = false
    simp [h1, h2]

theorem contains_false_of (q : Char) (cs : List Char) (h : ∀ c ∈ cs, c ≠ q) :
    cs.contains q = false := by
  induction cs with
  | nil => rfl
  | cons c cs ih =>
    have hne : (q == c) = false := by
      simp only [beq_eq_false_iff_ne]
      exact fun e => (h c (by simp)) e.symm
    have ih2 := ih (fun d hd => h d (by simp [hd]))
    simp only [List.contains, List.elem] at ih2 ⊢
    simp only [hne]
    exact ih2

theorem inAux_nil (fuel : Nat) : inAux fuel [] = [] := by
  cases fuel <;> rfl

/-- The IN pass on `IN (<flat body>)`: the whole span is matched and handed
to `replace_in_clause`; with neither SELECT nor quote in the body the span
collapses to `IN (9)`, with a quote to `IN ('X')`. -/
theorem inAux_whole (content : List Char) (fuel : Nat) (hf : 1 ≤ fuel)
    (hp : ∀ c ∈ content, c ≠ '(' ∧ c ≠ ')') :
    inAux fuel ('I' :: 'N' :: ' ' :: '(' :: (content ++ [')'])) =
      replaceIn (fuel - 1) content := by
  obtain ⟨f, rfl⟩ : ∃ f, fuel = f + 1 := ⟨fuel - 1, by omega⟩
  have hI : ('I').toUpper = 'I' := by decide
  have hN : ('N').toUpper = 'N' := by decide
  have hsp : isSpaceChar ' ' = true := by decide
  have hnp : isSpaceChar '(' = false := by decide
  simp only [inAux, hI, hN, if_pos rfl, List.dropWhile, hsp, hnp]
  rw [inContent_flat content ((content ++ [')']).length + 1) (by simp) hp]
  simp only [if_true]
  rw [inAux_nil, List.append_nil]
  simp

/-- Evaluating `replace_in_clause` on a nine-list body: no SELECT, no quote, so the
whole list collapses to `IN (9)`. -/
theorem replaceIn_nine (n : Nat) : ∀ f : Nat, 1 ≤ f →
    replaceIn f (nineListR n) = "IN (9)".data := by
  intro f hf
  obtain ⟨g, rfl⟩ : ∃ g, f = g + 1 := ⟨f - 1, by omega⟩
  have hS : containsCI "SELECT".data (nineListR n) = false := by
    apply containsCI_false_of_head
    intro c hc
    rcases nineListR_mem n c hc with h | h | h <;> subst h <;> decide
  have hq1 : (nineListR n).contains '\'' = false := by
    apply contains_false_of
    intro c hc
    rcases nineListR_mem n c hc with h | h | h <;> subst h <;> decide
  have hq2 : (nineListR n).contains '"' = false := by
    apply contains_false_of
    intro c hc
    rcases nineListR_mem n c hc with h | h | h <;> subst h <;> decide
  simp only [replaceIn]
  rw [if_neg (by simp only [hS, Bool.false_eq_true, not_false_eq_true]),
    if_neg (by simp only [hq1, hq2, Bool.or_self, Bool.false_eq_true, not_false_eq_true])]

/-- Evaluating `replace_in_clause` on an abstracted quoted body: no SELECT but a quote,
so the whole list collapses to `IN ('X')`. -/
theorem replaceIn_strX (n : Nat) : ∀ f : Nat, 1 ≤ f →
    replaceIn f (strListX n) = "IN ('X')".data := by
  intro f hf
  obtain ⟨g, rfl⟩ : ∃ g, f = g + 1 := ⟨f - 1, by omega⟩
  have hS : containsCI "SELECT".data (strListX n) = false := by
    apply containsCI_false_of_head
    intro c hc
    rcases strListX_mem n c hc with h | h | h | h <;> subst h <;> decide
  have hq1 : (strListX n).contains '\'' = true := by
    cases n <;> simp [strListX, List.contains, List.elem]
  simp only [replaceIn]
  rw [if_neg (by simp only [hS, Bool.false_eq_true, not_false_eq_true]),
    if_pos (by simp only [hq1, Bool.true_or])]

/-- The numeric pass over the full `IN (<numbers>)` text. -/
theorem numAux_inNum (n : Nat) : ∀ fuel : Nat, 3 * n + 6 ≤ fuel →
    numAux fuel false ('I' :: 'N' :: ' ' :: '(' :: (numListR n ++ [')'])) =
      'I' :: 'N' :: ' ' :: '(' :: (nineListR n ++ [')']) := by
  intro fuel h
  obtain ⟨f, rfl⟩ : ∃ f, fuel = f + 4 := ⟨fuel - 4, by omega⟩
  rw [numAux_cons_plain _ _ _ _ (by decide)]
  rw [numAux_cons_plain _ _ _ _ (by decide)]
  rw [numAux_cons_plain _ _ _ _ (by decide)]
  rw [numAux_cons_plain _ _ _ _ (by decide)]
  have hw : isWordChar '(' = false := by decide
  rw [hw, numAux_numListR n f (by omega)]

/-- The single-quote pass over the full `IN ('A', ...)` text. -/
theorem quoteAux_inStr (n : Nat) : ∀ fuel : Nat, 3 * n + 6 ≤ fuel →
    quoteAux '\'' fuel ('I' :: 'N' :: ' ' :: '(' :: (strListR n ++ [')'])) =
      'I' :: 'N' :: ' ' :: '(' :: (strListX n ++ [')']) := by
  intro fuel h
  obtain ⟨f, rfl⟩ : ∃ f, fuel = f + 4 := ⟨fuel - 4, by omega⟩
  rw [quoteAux_cons_plain _ _ _ (by decide)]
  rw [quoteAux_cons_plain _ _ _ (by decide)]
  rw [quoteAux_cons_plain _ _ _ (by decide)]
  rw [quoteAux_cons_plain _ _ _ (by decide)]
  rw [quoteAux_strListR n f (by omega)]

/-- Membership decomposition for the abstracted numeric IN text. -/
theorem memInNine (n : Nat) :
    ∀ c ∈ ('I' :: 'N' :: ' ' :: '(' :: (nineListR n ++ [')'])),
      c = 'I' ∨ c = 'N' ∨ c = ' ' ∨ c = '(' ∨ c = ')' ∨ c = '9' ∨ c = ',' := by
  intro c hc
  simp only [List.mem_cons, List.mem_append, List.not_mem_nil, or_false] at hc
  rcases hc with h | h | h | h | h | h
  · simp [h]
  · simp [h]
  · simp [h]
  · simp [h]
  · rcases nineListR_mem n c h with h9 | h9 | h9 <;> simp [h9]
  · simp [h]

/-- Membership decomposition for the abstracted quoted IN text. -/
theorem memInStrX (n : Nat) :
    ∀ c ∈ ('I' :: 'N' :: ' ' :: '(' :: (strListX n ++ [')'])),
      c = 'I' ∨ c = 'N' ∨ c = ' ' ∨ c = '(' ∨ c = ')' ∨ c = '\'' ∨ c = 'X' ∨ c = ',' := by
  intro c hc
  simp only [List.mem_cons, List.mem_append, List.not_mem_nil, or_false] at hc
  rcases hc with h | h | h | h | h | h
  · simp [h]
  · simp [h]
  · simp [h]
  · simp [h]
  · rcases strListX_mem n c h with hx | hx | hx | hx <;> simp [hx]
  · simp [h]

/-- The canonicalizer collapses a numeric IN-list of any positive length to
`IN (9)`. -/
theorem abstract_inNum (n : Nat) :
    abstract_conditions ⟨'I' :: 'N' :: ' ' :: '(' :: (numListR n ++ [')'])⟩ = "IN (9)" := by
  have hdata : (⟨'I' :: 'N' :: ' ' :: '(' :: (numListR n ++ [')'])⟩ : String).data =
      'I' :: 'N' :: ' ' :: '(' :: (numListR n ++ [')']) := rfl
  simp only [abstract_conditions, hdata]
  rw [numAux_inNum n _ (by
    simp only [List.length_cons, List.length_append, List.length_nil, numListR_length]
    omega)]
  rw [quoteAux_id '\'' _ _ (fun c hc => by
    rcases memInNine n c hc with h | h | h | h | h | h | h <;> subst h <;> decide)]
  rw [quoteAux_id '"' _ _ (fun c hc => by
    rcases memInNine n c hc with h | h | h | h | h | h | h <;> subst h <;> decide)]
  rw [boolAux_id _ _ _ (fun c hc => by
    rcases memInNine n c hc with h | h | h | h | h | h | h <;> subst h <;> decide)]
  rw [nullAux_id _ _ _ (fun c hc => by
    rcases memInNine n c hc with h | h | h | h | h | h | h <;> subst h <;> decide)]
  rw [inAux_whole (nineListR n) _ (by omega) (fun c hc => by
    rcases nineListR_mem n c hc with h | h | h <;> subst h <;> decide)]
  rw [replaceIn_nine n _ (by
    simp only [List.length_cons, List.length_append, List.length_nil]
    omega)]
  decide

/-- The canonicalizer collapses a quoted IN-list of any positive length to
`IN ('X')`. -/
theorem abstract_inStr (n : Nat) :
    abstract_conditions ⟨'I' :: 'N' :: ' ' :: '(' :: (strListR n ++ [')'])⟩ = "IN ('X')" := by
  have hnod : ∀ c ∈ ('I' :: 'N' :: ' ' :: '(' :: (strListR n ++ [')'])),
      c.isDigit = false := by
    intro c hc
    simp only [List.mem_cons, List.mem_append, List.not_mem_nil, or_false] at hc
    rcases hc with h | h | h | h | h | h
    · subst h; decide
    · subst h; decide
    · subst h; decide
    · subst h; decide
    · rcases strListR_mem n c h with hx | hx | hx | hx <;> subst hx <;> decide
    · subst h; decide
  have hdata : (⟨'I' :: 'N' :: ' ' :: '(' :: (strListR n ++ [')'])⟩ : String).data =
      'I' :: 'N' :: ' ' :: '(' :: (strListR n ++ [')']) := rfl
  simp only [abstract_conditions, hdata]
  rw [numAux_id_of_noDigit _ _ _ hnod]
  rw [quoteAux_inStr n _ (by
    simp only [List.length_cons, List.length_append, List.length_nil, strListR_length]
    omega)]
  rw [quoteAux_id '"' _ _ (fun c hc => by
    rcases memInStrX n c hc with h | h | h | h | h | h | h | h <;> subst h <;> decide)]
  rw [boolAux_id _ _ _ (fun c hc => by
    rcases memInStrX n c hc with h | h | h | h | h | h | h | h <;> subst h <;> decide)]
  rw [nullAux_id _ _ _ (fun c hc => by
    rcases memInStrX n c hc with h | h | h | h | h | h | h | h <;> subst h <;> decide)]
  rw [inAux_whole (strListX n) _ (by omega) (fun c hc => by
    rcases strListX_mem n c hc with h | h | h | h <;> subst h <;> decide)]
  rw [replaceIn_strX n _ (by
    simp only [List.length_cons, List.length_append, List.length_nil]
    omega)]
  decide

/-- Claim C4 — IN-list canonicalization: a purely numeric IN-list of any
positive length collapses to `IN (9)`, a quoted IN-list of any positive
length collapses to `IN ('X')` (so list length never affects the
signature); the repository's own two-list example canonicalizes as the spec
states; and an IN-list whose content is a nested SELECT is recursively
processed (its own inner IN-list collapsing to `IN (9)`) and re-wrapped as
`IN (<recursively-canonicalized>)`. -/
theorem C4_in_list_canonicalization :
    (∀ n : Nat,
      abstract_conditions ⟨'I' :: 'N' :: ' ' :: '(' :: (numListR n ++ [')'])⟩ =
        "IN (9)") ∧
    (∀ n : Nat,
      abstract_conditions ⟨'I' :: 'N' :: ' ' :: '(' :: (strListR n ++ [')'])⟩ =
        "IN ('X')") ∧
    abstract_conditions "category IN ('A', 'B', 'C') AND status IN (0, 1, 2)" =
      "category IN ('X') AND status IN (9)" ∧
    abstract_conditions
        "customer_id IN (SELECT id FROM customers WHERE country = 'USA' AND age IN (10, 20, 30))" =
      "customer_id IN (SELECT id FROM customers WHERE country = 'X' AND age IN (9))" := by
  exact ⟨abstract_inNum, abstract_inStr, by decide, by decide⟩

end SqlCat
